import Mathlib

/-!
Verification of the `Vector3D` value type from
`src/rust-methods/src/brep_octree/brep_element.rs`.

The Rust type stores three `f64` components and provides construction,
componentwise addition, scalar multiplication (with a single `Into<f64>`
conversion of the scalar), Euclidean length, dot product, conversion to a
`[f64; 3]` array, and derived componentwise `PartialEq`.

We model IEEE-754 binary64 values executably: a canonical quiet NaN, signed
infinities, signed zeros, and nonzero finite values `(-1)^s * m * 2^e`
(canonically `2^52 ≤ m < 2^53` for normals, or `e = -1074` and `0 < m < 2^53`
for subnormals).  Arithmetic computes the exact dyadic result and rounds to
nearest, ties to even, with overflow to infinity and underflow to signed zero,
following IEEE-754 semantics for the special values.
-/

set_option maxRecDepth 40000

namespace WaamFit

/-- Fuel-driven base-2 logarithm on naturals (structural recursion so that the
kernel can evaluate it). -/
def log2f : Nat → Nat → Nat
  | 0, _ => 0
  | fuel + 1, n => if n ≤ 1 then 0 else log2f fuel (n / 2) + 1

/-- Position of the most significant bit of a positive natural. -/
def log2N (n : Nat) : Nat := log2f n n

/-- Fuel-driven integer square root (classic divide-by-4 recursion). -/
def isqrtF : Nat → Nat → Nat
  | 0, _ => 0
  | fuel + 1, n =>
    if n = 0 then 0
    else
      let b := isqrtF fuel (n / 4)
      if (2 * b + 1) * (2 * b + 1) ≤ n then 2 * b + 1 else 2 * b

/-- Integer square root (floor of the real square root). -/
def natSqrt (n : Nat) : Nat := isqrtF n n

/-- Shallow model of Rust `f64`: canonical NaN, signed infinities, signed
zeros, and nonzero finite dyadic values `(-1)^s * m * 2^e`. -/
inductive F64 where
  | nan : F64
  | inf : Bool → F64
  | zero : Bool → F64
  | num : Bool → Nat → Int → F64
deriving DecidableEq

/-- Pack a rounded significand `q` at ulp-exponent `er` into an `F64`,
handling the carry when rounding produced `2^53` and overflow to infinity. -/
def finishF (s : Bool) (q : Nat) (er : Int) : F64 :=
  if q = 0 then .zero s
  else if q = 2 ^ 53 then
    (if er + 1 > 971 then .inf s else .num s (2 ^ 52) (er + 1))
  else if er > 971 then .inf s
  else .num s q er

/-- The ulp exponent at which the dyadic `m * 2^e` (with `m ≠ 0`) is rounded:
53 significant bits, but never below the subnormal ulp `2^-1074`. -/
def erOf (m : Nat) (e : Int) : Int := max ((log2N m : Int) + e - 52) (-1074)

/-- Round-to-nearest (ties to even) of `m / 2^shn`. -/
def roundQ (m : Nat) (shn : Nat) : Nat :=
  let q := m / 2 ^ shn
  let r := m % 2 ^ shn
  let half := 2 ^ (shn - 1)
  if r < half then q
  else if half < r then q + 1
  else if q % 2 = 0 then q else q + 1

/-- Round the exact dyadic value `(-1)^s * m * 2^e` to the nearest binary64
value, ties to even, overflowing to infinity and underflowing to a zero of
sign `s`. -/
def roundF (s : Bool) (m : Nat) (e : Int) : F64 :=
  if m = 0 then .zero s
  else if erOf m e - e ≤ 0 then
    finishF s (m * 2 ^ (e - erOf m e).toNat) (erOf m e)
  else
    finishF s (roundQ m (erOf m e - e).toNat) (erOf m e)

/-- The signed exact sum of two nonzero finite values, as a single integer at
the common ulp `2^(min e1 e2)`. -/
def sumZ (s1 : Bool) (m1 : Nat) (e1 : Int) (s2 : Bool) (m2 : Nat) (e2 : Int) :
    Int :=
  (if s1 then -((m1 : Int) * 2 ^ (e1 - min e1 e2).toNat)
   else (m1 : Int) * 2 ^ (e1 - min e1 e2).toNat) +
  (if s2 then -((m2 : Int) * 2 ^ (e2 - min e1 e2).toNat)
   else (m2 : Int) * 2 ^ (e2 - min e1 e2).toNat)

/-- Addition of two nonzero finite values: exact sum, then one rounding; an
exact cancellation gives `+0` (round-to-nearest mode). -/
def faddNum (s1 : Bool) (m1 : Nat) (e1 : Int) (s2 : Bool) (m2 : Nat) (e2 : Int) :
    F64 :=
  if sumZ s1 m1 e1 s2 m2 e2 = 0 then .zero false
  else
    roundF (decide (sumZ s1 m1 e1 s2 m2 e2 < 0))
      (sumZ s1 m1 e1 s2 m2 e2).natAbs (min e1 e2)

/-- IEEE-754 binary64 addition (exact dyadic sum, then one rounding). -/
def fadd : F64 → F64 → F64
  | .nan, _ => .nan
  | _, .nan => .nan
  | .inf s, .inf t => if s = t then .inf s else .nan
  | .inf s, _ => .inf s
  | _, .inf t => .inf t
  | .zero s, .zero t => if s = t then .zero s else .zero false
  | .zero _, y => y
  | x, .zero _ => x
  | .num s1 m1 e1, .num s2 m2 e2 => faddNum s1 m1 e1 s2 m2 e2

/-- IEEE-754 binary64 multiplication (exact dyadic product, then rounding). -/
def fmul : F64 → F64 → F64
  | .nan, _ => .nan
  | _, .nan => .nan
  | .inf s, .inf t => .inf (Bool.xor s t)
  | .inf _, .zero _ => .nan
  | .zero _, .inf _ => .nan
  | .inf s, .num t _ _ => .inf (Bool.xor s t)
  | .num t _ _, .inf s => .inf (Bool.xor t s)
  | .zero s, .zero t => .zero (Bool.xor s t)
  | .zero s, .num t _ _ => .zero (Bool.xor s t)
  | .num t _ _, .zero s => .zero (Bool.xor t s)
  | .num s1 m1 e1, .num s2 m2 e2 =>
    roundF (Bool.xor s1 s2) (m1 * m2) (e1 + e2)

/-- Correctly rounded square root of the positive dyadic `m * 2^e`. -/
def sqrtPos (m : Nat) (e : Int) : F64 :=
  if m = 0 then .zero false
  else
    let p := if e % 2 = 0 then (m, e) else (2 * m, e - 1)
    let m2 := p.1
    let h : Int := p.2 / 2
    let t : Nat := log2N m2 / 2
    let g : Int := max ((t : Int) + h - 52) (-1074)
    let d : Nat := (h - g).toNat
    let N := m2 * 2 ^ (2 * d)
    let q0 := natSqrt N
    let q2 :=
      if q0 * q0 = N then q0
      else if q0 * q0 + q0 + 1 ≤ N then q0 + 1
      else q0
    finishF false q2 g

/-- IEEE-754 binary64 square root. -/
def fsqrt : F64 → F64
  | .nan => .nan
  | .inf s => if s then .nan else .inf false
  | .zero s => .zero s
  | .num s m e => if s then (if m = 0 then .zero true else .nan) else sqrtPos m e

/-- Exact conversion of a (small) integer to binary64, as Rust's
`impl Into<f64> for i32` performs. -/
def ofInt (n : Int) : F64 := roundF (decide (n < 0)) n.natAbs 0

/-- NaN test. -/
def F64.isNaN : F64 → Bool
  | .nan => true
  | _ => false

/-- Finiteness test (false for NaN and the infinities). -/
def F64.isFinite : F64 → Bool
  | .nan => false
  | .inf _ => false
  | _ => true

/-- Canonical-representation test: every value produced by the Rust program
satisfies it (normals have a 53-bit significand, subnormals live at the
minimum exponent). -/
def F64.Wf : F64 → Bool
  | .num _ m e =>
    decide ((e = -1074 ∧ 0 < m ∧ m < 2 ^ 53) ∨
      (-1074 < e ∧ e ≤ 971 ∧ 2 ^ 52 ≤ m ∧ m < 2 ^ 53))
  | _ => true

/-- Exponent of a finite value (0 for zeros, irrelevant elsewhere). -/
def F64.fexp : F64 → Int
  | .num _ _ e => e
  | _ => 0

/-- The signed integer `value / 2^e` of a finite value, exact whenever
`e` is at most the value's own exponent. -/
def F64.finScaled : F64 → Int → Int
  | .num s m ex, e => (if s then -(m : Int) else (m : Int)) * 2 ^ (ex - e).toNat
  | _, _ => 0

/-- IEEE-754 equality (`==` on Rust `f64`): NaN compares unequal to
everything, `-0.0 == 0.0`, finite values compare by numeric value. -/
def feq : F64 → F64 → Bool
  | .nan, _ => false
  | _, .nan => false
  | .inf s, .inf t => decide (s = t)
  | .inf _, _ => false
  | _, .inf _ => false
  | x, y =>
    decide (x.finScaled (min x.fexp y.fexp) = y.finScaled (min x.fexp y.fexp))

/-- IEEE-754 less-or-equal (`<=` on Rust `f64`). -/
def fle : F64 → F64 → Bool
  | .nan, _ => false
  | _, .nan => false
  | .inf s, .inf t => if s then true else !t
  | .inf s, _ => s
  | _, .inf t => !t
  | x, y =>
    decide (x.finScaled (min x.fexp y.fexp) ≤ y.finScaled (min x.fexp y.fexp))

/-- The Rust struct `Vector3D { i: f64, j: f64, k: f64 }`. -/
structure Vector3D where
  i : F64
  j : F64
  k : F64
deriving DecidableEq

/-- `Vector3D::new` (for `f64` inputs the `Into<f64>` conversion is the
identity; integer callers convert through `ofInt` first). -/
def Vector3D.new (i j k : F64) : Vector3D := ⟨i, j, k⟩

/-- `Vector3D::length`: `(self.i*self.i + self.j*self.j + self.k*self.k).sqrt()`. -/
def Vector3D.length (v : Vector3D) : F64 :=
  fsqrt (fadd (fadd (fmul v.i v.i) (fmul v.j v.j)) (fmul v.k v.k))

/-- `Vector3D::to_array`: `[self.i, self.j, self.k]`. -/
def Vector3D.to_array (v : Vector3D) : Fin 3 → F64
  | ⟨0, _⟩ => v.i
  | ⟨1, _⟩ => v.j
  | ⟨2, _⟩ => v.k

/-- `Vector3D::dot`: `self.i*other.i + self.j*other.j + self.k*other.k`. -/
def Vector3D.dot (a b : Vector3D) : F64 :=
  fadd (fadd (fmul a.i b.i) (fmul a.j b.j)) (fmul a.k b.k)

/-- `impl Add for Vector3D`: componentwise addition. -/
def Vector3D.add (a b : Vector3D) : Vector3D :=
  ⟨fadd a.i b.i, fadd a.j b.j, fadd a.k b.k⟩

/-- Scalar multiplication after the scalar has been converted to `f64`. -/
def Vector3D.mulF (v : Vector3D) (scalar_f64 : F64) : Vector3D :=
  ⟨fmul v.i scalar_f64, fmul v.j scalar_f64, fmul v.k scalar_f64⟩

/-- `impl<T: Into<f64>> Mul<T> for Vector3D`: the scalar is converted to
`f64` once (`let scalar_f64: f64 = scalar.into()`) and applied to all three
components. -/
def Vector3D.mulT {T : Type} (conv : T → F64) (v : Vector3D) (scalar : T) :
    Vector3D :=
  let scalar_f64 := conv scalar
  ⟨fmul v.i scalar_f64, fmul v.j scalar_f64, fmul v.k scalar_f64⟩

/-- The derived `PartialEq` on `Vector3D`: componentwise IEEE equality. -/
def Vector3D.veq (a b : Vector3D) : Bool :=
  feq a.i b.i && feq a.j b.j && feq a.k b.k

/-! ## Helper lemmas about the float model -/

/-- Non-negative float values (positive sign bit): `+0`, `+∞`, or a finite
value with sign bit clear. -/
def Pos0 (x : F64) : Prop :=
  x = F64.zero false ∨ x = F64.inf false ∨ ∃ m e, x = F64.num false m e

theorem finishF_cases (s : Bool) (q : Nat) (er : Int) :
    finishF s q er = F64.zero s ∨ finishF s q er = F64.inf s ∨
      ∃ m e, finishF s q er = F64.num s m e := by
  unfold finishF
  split
  · exact Or.inl rfl
  · split
    · split
      · exact Or.inr (Or.inl rfl)
      · exact Or.inr (Or.inr ⟨_, _, rfl⟩)
    · split
      · exact Or.inr (Or.inl rfl)
      · exact Or.inr (Or.inr ⟨_, _, rfl⟩)

theorem roundF_cases (s : Bool) (m : Nat) (e : Int) :
    roundF s m e = F64.zero s ∨ roundF s m e = F64.inf s ∨
      ∃ q g, roundF s m e = F64.num s q g := by
  unfold roundF
  split
  · exact Or.inl rfl
  · split
    · exact finishF_cases s _ _
    · exact finishF_cases s _ _

theorem pos0_finishF (q : Nat) (er : Int) : Pos0 (finishF false q er) := by
  rcases finishF_cases false q er with h | h | ⟨m, e, h⟩
  · exact Or.inl h
  · exact Or.inr (Or.inl h)
  · exact Or.inr (Or.inr ⟨m, e, h⟩)

theorem pos0_roundF (m : Nat) (e : Int) : Pos0 (roundF false m e) := by
  rcases roundF_cases false m e with h | h | ⟨q, g, h⟩
  · exact Or.inl h
  · exact Or.inr (Or.inl h)
  · exact Or.inr (Or.inr ⟨q, g, h⟩)

theorem fmul_self_pos0 (x : F64) (h : x.isNaN = false) : Pos0 (fmul x x) := by
  cases x with
  | nan => simp [F64.isNaN] at h
  | inf s => simp only [fmul, Bool.xor_self]; exact Or.inr (Or.inl rfl)
  | zero s => simp only [fmul, Bool.xor_self]; exact Or.inl rfl
  | num s m e => simp only [fmul, Bool.xor_self]; exact pos0_roundF _ _

theorem sumZ_nonneg (m1 : Nat) (e1 : Int) (m2 : Nat) (e2 : Int) :
    0 ≤ sumZ false m1 e1 false m2 e2 := by
  unfold sumZ
  simp only [Bool.false_eq_true, if_false]
  positivity

theorem faddNum_pos0 (m1 : Nat) (e1 : Int) (m2 : Nat) (e2 : Int) :
    Pos0 (faddNum false m1 e1 false m2 e2) := by
  unfold faddNum
  split
  · exact Or.inl rfl
  · rw [decide_eq_false (not_lt.mpr (sumZ_nonneg m1 e1 m2 e2))]
    exact pos0_roundF _ _

theorem fadd_pos0 (x y : F64) (hx : Pos0 x) (hy : Pos0 y) :
    Pos0 (fadd x y) := by
  rcases hx with rfl | rfl | ⟨m1, e1, rfl⟩ <;>
    rcases hy with rfl | rfl | ⟨m2, e2, rfl⟩
  · exact Or.inl rfl
  · exact Or.inr (Or.inl rfl)
  · exact Or.inr (Or.inr ⟨m2, e2, rfl⟩)
  · exact Or.inr (Or.inl rfl)
  · exact Or.inr (Or.inl rfl)
  · exact Or.inr (Or.inl rfl)
  · exact Or.inr (Or.inr ⟨m1, e1, rfl⟩)
  · exact Or.inr (Or.inl rfl)
  · exact faddNum_pos0 m1 e1 m2 e2

theorem sqrtPos_pos0 (m : Nat) (e : Int) : Pos0 (sqrtPos m e) := by
  unfold sqrtPos
  split
  · exact Or.inl rfl
  · exact pos0_finishF _ _

theorem fsqrt_pos0 (x : F64) (h : Pos0 x) : Pos0 (fsqrt x) := by
  rcases h with rfl | rfl | ⟨m, e, rfl⟩
  · exact Or.inl rfl
  · exact Or.inr (Or.inl rfl)
  · show Pos0 (sqrtPos m e)
    exact sqrtPos_pos0 m e

theorem ofInt_zero : ofInt 0 = F64.zero false := rfl

theorem fle_zero_num (m : Nat) (e : Int) :
    fle (F64.zero false) (F64.num false m e) =
      decide ((0 : Int) ≤ (m : Int) * 2 ^ (e - min 0 e).toNat) := rfl

theorem fle_zero_pos0 (x : F64) (h : Pos0 x) : fle (ofInt 0) x = true := by
  rw [ofInt_zero]
  rcases h with rfl | rfl | ⟨m, e, rfl⟩
  · decide
  · decide
  · rw [fle_zero_num, decide_eq_true_eq]
    positivity

theorem feq_self (x : F64) (h : x.isNaN = false) : feq x x = true := by
  cases x with
  | nan => simp [F64.isNaN] at h
  | inf s => simp [feq]
  | zero s => simp [feq]
  | num s m e => simp [feq]

theorem veq_refl (v : Vector3D) (hi : v.i.isNaN = false)
    (hj : v.j.isNaN = false) (hk : v.k.isNaN = false) :
    Vector3D.veq v v = true := by
  simp only [Vector3D.veq, Bool.and_eq_true]
  exact ⟨⟨feq_self _ hi, feq_self _ hj⟩, feq_self _ hk⟩

theorem fmul_comm (x y : F64) : fmul x y = fmul y x := by
  cases x <;> cases y <;>
    simp [fmul, Bool.xor_comm, Nat.mul_comm, Int.add_comm]

theorem fadd_comm (x y : F64) : fadd x y = fadd y x := by
  cases x <;> cases y <;> try rfl
  case inf.inf s t =>
    cases s <;> cases t <;> rfl
  case zero.zero s t =>
    cases s <;> cases t <;> rfl
  case num.num s1 m1 e1 s2 m2 e2 =>
    show faddNum s1 m1 e1 s2 m2 e2 = faddNum s2 m2 e2 s1 m1 e1
    have hz : sumZ s2 m2 e2 s1 m1 e1 = sumZ s1 m1 e1 s2 m2 e2 := by
      unfold sumZ
      rw [Int.min_comm e2 e1, Int.add_comm]
    unfold faddNum
    rw [hz, Int.min_comm e2 e1]

theorem log2f_bounds :
    ∀ (fuel n : Nat), 0 < n → n ≤ 2 ^ fuel →
      2 ^ log2f fuel n ≤ n ∧ n < 2 ^ (log2f fuel n + 1) := by
  intro fuel
  induction fuel with
  | zero =>
    intro n h1 h2
    simp only [log2f, pow_zero] at h2 ⊢
    omega
  | succ f ih =>
    intro n h1 h2
    by_cases hn : n ≤ 1
    · simp only [log2f, if_pos hn, pow_zero, pow_one]
      omega
    · simp only [log2f, if_neg hn]
      have h2a : n / 2 ≤ 2 ^ f := by
        rw [pow_succ] at h2
        omega
      obtain ⟨a, b⟩ := ih (n / 2) (by omega) h2a
      have e1 : 2 ^ (log2f f (n / 2) + 1) = 2 ^ log2f f (n / 2) * 2 :=
        pow_succ 2 _
      have e2 : 2 ^ (log2f f (n / 2) + 1 + 1) = 2 ^ (log2f f (n / 2) + 1) * 2 :=
        pow_succ 2 _
      omega

theorem log2N_bounds (n : Nat) (h : 0 < n) :
    2 ^ log2N n ≤ n ∧ n < 2 ^ (log2N n + 1) :=
  log2f_bounds n n h (le_of_lt (Nat.lt_two_pow n))

theorem log2N_eq (n t : Nat) (h1 : 2 ^ t ≤ n) (h2 : n < 2 ^ (t + 1)) :
    log2N n = t := by
  have h0 : 0 < n := lt_of_lt_of_le (by positivity) h1
  obtain ⟨a, b⟩ := log2N_bounds n h0
  have c1 : 2 ^ log2N n < 2 ^ (t + 1) := lt_of_le_of_lt a h2
  have c2 : 2 ^ t < 2 ^ (log2N n + 1) := lt_of_le_of_lt h1 b
  have d1 : log2N n < t + 1 :=
    (Nat.pow_lt_pow_iff_right (by norm_num)).mp c1
  have d2 : t < log2N n + 1 :=
    (Nat.pow_lt_pow_iff_right (by norm_num)).mp c2
  omega

theorem roundQ_mul (m k : Nat) : roundQ (m * 2 ^ k) k = m := by
  unfold roundQ
  rw [Nat.mul_div_cancel m (by positivity), Nat.mul_mod_left]
  rw [if_pos (by positivity)]

/-- Rounding a canonical significand shifted up by 52 bits is exact. -/
theorem roundF_mul_two_pow_52 (s : Bool) (m : Nat) (e : Int)
    (h0 : 0 < m) (h53 : m < 2 ^ 53) (hlow : -1074 ≤ e) (hhigh : e ≤ 971)
    (hc : 2 ^ 52 ≤ m ∨ e = -1074) :
    roundF s (m * 2 ^ 52) (e - 52) = F64.num s m e := by
  obtain ⟨hb1, hb2⟩ := log2N_bounds m h0
  have ht53 : log2N m ≤ 52 := by
    by_contra hcon
    push_neg at hcon
    have : 2 ^ 53 ≤ 2 ^ log2N m := Nat.pow_le_pow_right (by norm_num) hcon
    omega
  have hL : log2N (m * 2 ^ 52) = log2N m + 52 := by
    apply log2N_eq
    · rw [pow_add]
      exact Nat.mul_le_mul_right _ hb1
    · calc m * 2 ^ 52 < 2 ^ (log2N m + 1) * 2 ^ 52 :=
            (Nat.mul_lt_mul_right (by positivity)).mpr hb2
        _ = 2 ^ (log2N m + 52 + 1) := by ring
  have her : erOf (m * 2 ^ 52) (e - 52) = e := by
    unfold erOf
    rw [hL]
    have hA : (↑(log2N m + 52) : Int) + (e - 52) - 52 = ↑(log2N m) + e - 52 := by
      push_cast
      ring
    rw [hA]
    rcases hc with h | h
    · have h52 : log2N m = 52 := by
        have ha : 2 ^ 52 < 2 ^ (log2N m + 1) := lt_of_le_of_lt h hb2
        have hb : 52 < log2N m + 1 :=
          (Nat.pow_lt_pow_iff_right (by norm_num)).mp ha
        omega
      rw [h52]
      rw [max_eq_left (by omega)]
      omega
    · rw [max_eq_right (by omega)]
      omega
  have hmz : m * 2 ^ 52 ≠ 0 := by positivity
  unfold roundF
  rw [if_neg hmz, her]
  rw [if_neg (by omega : ¬ (e - (e - 52) ≤ 0))]
  have h52n : (e - (e - 52)).toNat = 52 := by omega
  rw [h52n, roundQ_mul]
  unfold finishF
  rw [if_neg (by omega), if_neg (Nat.ne_of_lt h53),
    if_neg (not_lt.mpr hhigh)]

/-- `x * 1.0` is exactly `x` for every non-NaN canonical value. -/
theorem fmul_one_wf (x : F64) (hw : x.Wf = true) (hn : x.isNaN = false) :
    fmul x (ofInt 1) = x := by
  have h1 : ofInt 1 = F64.num false (2 ^ 52) (-52) := by decide
  rw [h1]
  cases x with
  | nan => simp [F64.isNaN] at hn
  | inf s =>
    show F64.inf (Bool.xor s false) = F64.inf s
    rw [Bool.xor_false]
  | zero s =>
    show F64.zero (Bool.xor s false) = F64.zero s
    rw [Bool.xor_false]
  | num s m e =>
    show roundF (Bool.xor s false) (m * 2 ^ 52) (e + -52) = F64.num s m e
    rw [Bool.xor_false, (by ring : e + -52 = e - 52)]
    simp only [F64.Wf, decide_eq_true_eq] at hw
    rcases hw with ⟨he1, hm0, hm1⟩ | ⟨he1, he2, hm1, hm2⟩
    · exact roundF_mul_two_pow_52 s m e hm0 hm1 (by omega) (by omega)
        (Or.inr he1)
    · have h0 : 0 < m := lt_of_lt_of_le (by positivity) hm1
      exact roundF_mul_two_pow_52 s m e h0 hm2 (by omega) he2 (Or.inl hm1)

/-- `x * 0.0` compares IEEE-equal to `0.0` for every finite `x`. -/
theorem fmul_zero_right (x : F64) (hx : x.isFinite = true) :
    feq (fmul x (ofInt 0)) (ofInt 0) = true := by
  rw [ofInt_zero]
  cases x with
  | nan => simp [F64.isFinite] at hx
  | inf s => simp [F64.isFinite] at hx
  | zero s =>
    show feq (F64.zero (Bool.xor s false)) (F64.zero false) = true
    cases s <;> decide
  | num s m e =>
    show feq (F64.zero (Bool.xor s false)) (F64.zero false) = true
    cases s <;> decide

theorem feq_num_zero (s : Bool) (m : Nat) (e : Int) (t : Bool) :
    feq (F64.num s m e) (F64.zero t) =
      decide ((if s then -(m : Int) else (m : Int)) *
        2 ^ (e - min e 0).toNat = 0) := rfl

/-- The square of an IEEE-zero value is exactly `+0`. -/
theorem fmul_self_eq_zero (x : F64) (h : feq x (ofInt 0) = true) :
    fmul x x = F64.zero false := by
  rw [ofInt_zero] at h
  cases x with
  | nan => simp [feq] at h
  | inf s => simp [feq] at h
  | zero s =>
    show F64.zero (Bool.xor s s) = F64.zero false
    rw [Bool.xor_self]
  | num s m e =>
    rw [feq_num_zero, decide_eq_true_eq] at h
    have hpow : (2 : Int) ^ (e - min e 0).toNat ≠ 0 := by positivity
    have hif : (if s then -(m : Int) else (m : Int)) = 0 := by
      rcases mul_eq_zero.mp h with h4 | h4
      · exact h4
      · exact absurd h4 hpow
    have hm : m = 0 := by
      cases s <;> simp at hif <;> omega
    subst hm
    show roundF (Bool.xor s s) (0 * 0) (e + e) = F64.zero false
    rw [Bool.xor_self]
    rfl

theorem feq_self_iff (x : F64) : feq x x = true ↔ x.isNaN = false := by
  cases x with
  | nan => simp [feq, F64.isNaN]
  | inf s => simp [feq, F64.isNaN]
  | zero s => simp [feq, F64.isNaN]
  | num s m e => simp [feq, F64.isNaN]

/-! ## Claims -/

/-- C1: for all doubles `a b c`, `Vector3D::new(a,b,c).to_array()` is exactly
the three-element array `[a, b, c]`, in order, with the values untouched. -/
theorem C1_new_to_array (a b c : F64) :
    (Vector3D.new a b c).to_array = ![a, b, c] := by
  funext idx
  fin_cases idx <;> rfl

/-- C2: the addition operator returns the componentwise IEEE-754 double sum,
and `Vector3D::new(1,2,3) + Vector3D::new(2,3,4) == Vector3D::new(3,5,7)`. -/
theorem C2_add_componentwise :
    (∀ a b : Vector3D, Vector3D.add a b =
      ⟨fadd a.i b.i, fadd a.j b.j, fadd a.k b.k⟩) ∧
    Vector3D.veq
      (Vector3D.add (Vector3D.new (ofInt 1) (ofInt 2) (ofInt 3))
        (Vector3D.new (ofInt 2) (ofInt 3) (ofInt 4)))
      (Vector3D.new (ofInt 3) (ofInt 5) (ofInt 7)) = true :=
  ⟨fun _ _ => rfl, by decide⟩

/-- C3: `length` computes `sqrt(i*i + j*j + k*k)` in double precision
throughout, and `Vector3D::new(2,3,4).length() == sqrt(29.0)`. -/
theorem C3_length_formula :
    (∀ v : Vector3D, v.length =
      fsqrt (fadd (fadd (fmul v.i v.i) (fmul v.j v.j)) (fmul v.k v.k))) ∧
    feq (Vector3D.new (ofInt 2) (ofInt 3) (ofInt 4)).length
      (fsqrt (ofInt 29)) = true :=
  ⟨fun _ => rfl, by decide⟩

/-- C4 counterexample: the vector `(2^-600, 0, 0)` has length exactly
`+0.0` although its first component is not exactly 0 — the squares underflow
to zero.  This refutes the claim that the length is 0 only when all three
components are 0. -/
theorem C4_counterexample :
    (Vector3D.new (F64.num false (2 ^ 52) (-652)) (ofInt 0) (ofInt 0)).length
        = F64.zero false ∧
    feq (Vector3D.new (F64.num false (2 ^ 52) (-652)) (ofInt 0) (ofInt 0)).length
        (ofInt 0) = true ∧
    feq (Vector3D.new (F64.num false (2 ^ 52) (-652)) (ofInt 0) (ofInt 0)).i
        (ofInt 0) = false := by decide

/-- C4 (amended): for every vector with no NaN component, `0.0 <= length(v)`;
and if all three components are exactly 0 then the length is exactly `+0.0`.
The converse direction of the zero case is false (see the counterexample),
and for a NaN component the length is NaN, which is not `>= 0`. -/
theorem C4_length_nonneg (v : Vector3D) (hi : v.i.isNaN = false)
    (hj : v.j.isNaN = false) (hk : v.k.isNaN = false) :
    fle (ofInt 0) v.length = true ∧
    (feq v.i (ofInt 0) = true → feq v.j (ofInt 0) = true →
      feq v.k (ofInt 0) = true → v.length = F64.zero false) := by
  constructor
  · exact fle_zero_pos0 _ (fsqrt_pos0 _ (fadd_pos0 _ _
      (fadd_pos0 _ _ (fmul_self_pos0 _ hi) (fmul_self_pos0 _ hj))
      (fmul_self_pos0 _ hk)))
  · intro h1 h2 h3
    show fsqrt (fadd (fadd (fmul v.i v.i) (fmul v.j v.j)) (fmul v.k v.k)) =
      F64.zero false
    rw [fmul_self_eq_zero _ h1, fmul_self_eq_zero _ h2, fmul_self_eq_zero _ h3]
    rfl

/-- C4 witness: the amended statement instantiated at `(1, 2, 2)`. -/
theorem C4_witness :
    fle (ofInt 0) (Vector3D.new (ofInt 1) (ofInt 2) (ofInt 2)).length = true :=
  (C4_length_nonneg (Vector3D.new (ofInt 1) (ofInt 2) (ofInt 2))
    (by decide) (by decide) (by decide)).1

/-- C5 counterexample: with a NaN component the dot product is NaN, and
`dot(a,b) == dot(b,a)` is then false under IEEE `==`. -/
theorem C5_counterexample :
    feq ((Vector3D.new F64.nan (ofInt 0) (ofInt 0)).dot
          (Vector3D.new (ofInt 0) (ofInt 0) (ofInt 0)))
        ((Vector3D.new (ofInt 0) (ofInt 0) (ofInt 0)).dot
          (Vector3D.new F64.nan (ofInt 0) (ofInt 0))) = false := by decide

/-- C5 (amended): `dot` returns the left-to-right sum of componentwise
products; `dot(a,b)` and `dot(b,a)` are the identical value for all inputs,
and the `==` comparison between them holds whenever the result is non-NaN. -/
theorem C5_dot_symm (a b : Vector3D) :
    a.dot b = fadd (fadd (fmul a.i b.i) (fmul a.j b.j)) (fmul a.k b.k) ∧
    a.dot b = b.dot a ∧
    ((a.dot b).isNaN = false → feq (a.dot b) (b.dot a) = true) := by
  have hcomm : a.dot b = b.dot a := by
    show fadd (fadd (fmul a.i b.i) (fmul a.j b.j)) (fmul a.k b.k) =
      fadd (fadd (fmul b.i a.i) (fmul b.j a.j)) (fmul b.k a.k)
    rw [fmul_comm a.i b.i, fmul_comm a.j b.j, fmul_comm a.k b.k]
  refine ⟨rfl, hcomm, fun h => ?_⟩
  rw [← hcomm]
  exact feq_self _ h

/-- C5 witness: the amended statement instantiated at `(1,0,0)` and
`(2,2,2)`. -/
theorem C5_witness :
    feq ((Vector3D.new (ofInt 1) (ofInt 0) (ofInt 0)).dot
          (Vector3D.new (ofInt 2) (ofInt 2) (ofInt 2)))
        ((Vector3D.new (ofInt 2) (ofInt 2) (ofInt 2)).dot
          (Vector3D.new (ofInt 1) (ofInt 0) (ofInt 0))) = true :=
  (C5_dot_symm _ _).2.2 (by decide)

/-- C6: scalar multiplication converts the scalar to double once and applies
the same converted value to all three components (it factors through
`mulF` applied to the single converted scalar), and
`Vector3D::new(1,2,3) * 3 == Vector3D::new(3,6,9)`. -/
theorem C6_scalar_converted_once :
    (∀ (T : Type) (conv : T → F64) (v : Vector3D) (scalar : T),
      Vector3D.mulT conv v scalar = v.mulF (conv scalar)) ∧
    Vector3D.veq
      (Vector3D.mulT ofInt (Vector3D.new (ofInt 1) (ofInt 2) (ofInt 3)) 3)
      (Vector3D.new (ofInt 3) (ofInt 6) (ofInt 9)) = true :=
  ⟨fun _ _ _ _ => rfl, by decide⟩

/-- C7 counterexample: with a NaN component, `v * 0` is not `==` the zero
vector and `v * 1` is not `==` `v`; with an infinite component, `v * 0` has a
NaN component (`inf * 0 = NaN`), so it is not `==` the zero vector either. -/
theorem C7_counterexample :
    Vector3D.veq
      (Vector3D.mulT ofInt (Vector3D.new F64.nan (ofInt 0) (ofInt 0)) 0)
      (Vector3D.new (ofInt 0) (ofInt 0) (ofInt 0)) = false ∧
    Vector3D.veq
      (Vector3D.mulT ofInt (Vector3D.new F64.nan (ofInt 0) (ofInt 0)) 1)
      (Vector3D.new F64.nan (ofInt 0) (ofInt 0)) = false ∧
    Vector3D.veq
      (Vector3D.mulT ofInt
        (Vector3D.new (F64.inf false) (ofInt 0) (ofInt 0)) 0)
      (Vector3D.new (ofInt 0) (ofInt 0) (ofInt 0)) = false := by decide

/-- C7 (amended): for every vector whose components are canonical non-NaN
doubles, `v * 1 == v`; if the components are moreover finite,
`v * 0 == Vector3D::new(0,0,0)`. -/
theorem C7_scalar_zero_one (v : Vector3D)
    (hwi : v.i.Wf = true) (hwj : v.j.Wf = true) (hwk : v.k.Wf = true)
    (hi : v.i.isNaN = false) (hj : v.j.isNaN = false)
    (hk : v.k.isNaN = false) :
    Vector3D.veq (Vector3D.mulT ofInt v 1) v = true ∧
    (v.i.isFinite = true → v.j.isFinite = true → v.k.isFinite = true →
      Vector3D.veq (Vector3D.mulT ofInt v 0)
        (Vector3D.new (ofInt 0) (ofInt 0) (ofInt 0)) = true) := by
  constructor
  · show Vector3D.veq
      ⟨fmul v.i (ofInt 1), fmul v.j (ofInt 1), fmul v.k (ofInt 1)⟩ v = true
    rw [fmul_one_wf v.i hwi hi, fmul_one_wf v.j hwj hj,
      fmul_one_wf v.k hwk hk]
    exact veq_refl v hi hj hk
  · intro f1 f2 f3
    show Vector3D.veq
      ⟨fmul v.i (ofInt 0), fmul v.j (ofInt 0), fmul v.k (ofInt 0)⟩
      (Vector3D.new (ofInt 0) (ofInt 0) (ofInt 0)) = true
    simp only [Vector3D.veq, Vector3D.new, Bool.and_eq_true]
    exact ⟨⟨fmul_zero_right _ f1, fmul_zero_right _ f2⟩,
      fmul_zero_right _ f3⟩

/-- C7 witness: the amended statement instantiated at `(1, 2, 3)`. -/
theorem C7_witness :
    Vector3D.veq
      (Vector3D.mulT ofInt (Vector3D.new (ofInt 1) (ofInt 2) (ofInt 3)) 1)
      (Vector3D.new (ofInt 1) (ofInt 2) (ofInt 3)) = true :=
  (C7_scalar_zero_one (Vector3D.new (ofInt 1) (ofInt 2) (ofInt 3))
    (by decide) (by decide) (by decide) (by decide) (by decide)
    (by decide)).1

/-- C8 counterexample: with a NaN component, `u + v == v + u` is false under
IEEE `==` (NaN compares unequal to itself). -/
theorem C8_counterexample :
    Vector3D.veq
      (Vector3D.add (Vector3D.new F64.nan (ofInt 0) (ofInt 0))
        (Vector3D.new (ofInt 0) (ofInt 0) (ofInt 0)))
      (Vector3D.add (Vector3D.new (ofInt 0) (ofInt 0) (ofInt 0))
        (Vector3D.new F64.nan (ofInt 0) (ofInt 0))) = false := by decide

/-- C8 (amended): `u + v` and `v + u` are the identical vector for all
inputs (componentwise, the model's addition is commutative, including its
NaN and signed-zero cases); the `==` comparison between them additionally
holds whenever no component of the sum is NaN. -/
theorem C8_add_comm (u v : Vector3D) :
    Vector3D.add u v = Vector3D.add v u ∧
    ((Vector3D.add u v).i.isNaN = false →
      (Vector3D.add u v).j.isNaN = false →
      (Vector3D.add u v).k.isNaN = false →
      Vector3D.veq (Vector3D.add u v) (Vector3D.add v u) = true) := by
  have hcomm : Vector3D.add u v = Vector3D.add v u := by
    show (⟨fadd u.i v.i, fadd u.j v.j, fadd u.k v.k⟩ : Vector3D) =
      ⟨fadd v.i u.i, fadd v.j u.j, fadd v.k u.k⟩
    rw [fadd_comm u.i v.i, fadd_comm u.j v.j, fadd_comm u.k v.k]
  refine ⟨hcomm, fun h1 h2 h3 => ?_⟩
  rw [← hcomm]
  exact veq_refl _ h1 h2 h3

/-- C8 witness: the amended statement instantiated at `(1,2,3)` and
`(2,3,4)`. -/
theorem C8_witness :
    Vector3D.veq
      (Vector3D.add (Vector3D.new (ofInt 1) (ofInt 2) (ofInt 3))
        (Vector3D.new (ofInt 2) (ofInt 3) (ofInt 4)))
      (Vector3D.add (Vector3D.new (ofInt 2) (ofInt 3) (ofInt 4))
        (Vector3D.new (ofInt 1) (ofInt 2) (ofInt 3))) = true :=
  (C8_add_comm (Vector3D.new (ofInt 1) (ofInt 2) (ofInt 3))
    (Vector3D.new (ofInt 2) (ofInt 3) (ofInt 4))).2
    (by decide) (by decide) (by decide)

/-- C9 counterexample: for a vector with a NaN component the round-trip
through `to_array` produces a structurally identical vector, but the `==`
comparison with the original is false. -/
theorem C9_counterexample :
    Vector3D.veq
      (Vector3D.new
        ((Vector3D.new F64.nan (ofInt 0) (ofInt 0)).to_array 0)
        ((Vector3D.new F64.nan (ofInt 0) (ofInt 0)).to_array 1)
        ((Vector3D.new F64.nan (ofInt 0) (ofInt 0)).to_array 2))
      (Vector3D.new F64.nan (ofInt 0) (ofInt 0)) = false := by decide

/-- C9 (amended): reconstructing a vector from the three elements of
`to_array` yields a structurally identical vector (the same components,
always); the `==` comparison with the original additionally holds whenever
no component is NaN. -/
theorem C9_roundtrip (v : Vector3D) :
    Vector3D.new (v.to_array 0) (v.to_array 1) (v.to_array 2) = v ∧
    (v.i.isNaN = false → v.j.isNaN = false → v.k.isNaN = false →
      Vector3D.veq
        (Vector3D.new (v.to_array 0) (v.to_array 1) (v.to_array 2)) v
          = true) := by
  have hs : Vector3D.new (v.to_array 0) (v.to_array 1) (v.to_array 2) = v :=
    rfl
  refine ⟨hs, fun h1 h2 h3 => ?_⟩
  rw [hs]
  exact veq_refl v h1 h2 h3

/-- C9 witness: the amended statement instantiated at `(1,2,3)`. -/
theorem C9_witness :
    Vector3D.veq
      (Vector3D.new
        ((Vector3D.new (ofInt 1) (ofInt 2) (ofInt 3)).to_array 0)
        ((Vector3D.new (ofInt 1) (ofInt 2) (ofInt 3)).to_array 1)
        ((Vector3D.new (ofInt 1) (ofInt 2) (ofInt 3)).to_array 2))
      (Vector3D.new (ofInt 1) (ofInt 2) (ofInt 3)) = true :=
  (C9_roundtrip (Vector3D.new (ofInt 1) (ofInt 2) (ofInt 3))).2
    (by decide) (by decide) (by decide)

/-- C10: the derived componentwise IEEE equality is reflexive exactly on the
vectors with no NaN component: `v == v` holds iff all three components are
non-NaN, and is false as soon as one component is NaN. -/
theorem C10_eq_reflexive_iff_no_nan (v : Vector3D) :
    Vector3D.veq v v = true ↔
      (v.i.isNaN = false ∧ v.j.isNaN = false ∧ v.k.isNaN = false) := by
  simp only [Vector3D.veq, Bool.and_eq_true, feq_self_iff]
  exact and_assoc

end WaamFit
